import Mathlib

/-!
# Verification of the eth-wallpaper-gen image transform

Shallow embedding of `eth-wallpaper-gen/main.py`: the polygon template table,
the mirror map, the geometry scaler, the brightness filter, the crop box, the
CLI dispatch, and the pixel-remap main loop.  Coordinate arithmetic is carried
out over exact rationals (the idealisation of the program's binary64 floats:
for every containment decision, bound, and truncated translation appearing in
the concrete scenarios below, the two agree, since all margins are many orders
of magnitude above the rounding error).  The external geometry collaborator
(shapely) is modelled by interior membership for the convex rings the program
uses, and the external image collaborator (PIL) by a pixel grid
`ℤ × ℤ → ℕ × ℕ × ℕ`.  The outline and watermark renderers (font rasterisation,
external drawing primitives) are outside the embedding; the pixel-remap stage
is modelled in full, including its in-place read-after-write semantics.
-/

namespace EthWallpaper

/-- A point of the exact-rational coordinate plane. -/
abbrev Pt := ℚ × ℚ

/-- An RGB pixel value. -/
abbrev Pix := ℕ × ℕ × ℕ

/-- A pixel grid, as accessed through `im.load()`. -/
abbrev Img := ℤ × ℤ → Pix

/-- The four orientation names keying the polygon template table (the string
keys of the `magics` dict, in insertion order top-left, top-right, bottom-left,
bottom-right). -/
inductive Region where
  | topLeft | topRight | bottomLeft | bottomRight
deriving DecidableEq, Fintype, Repr

/-- `magics`: relative polygon co-ordinates, each float literal read as the
exact rational it denotes.  Each list is a closed ring (first vertex repeated
at the end), exactly as in the source. -/
def magics : Region → List Pt
  | .topLeft     => [(0.500, 0.183), (0.393, 0.445), (0.500, 0.538), (0.500, 0.183)]
  | .topRight    => [(0.500, 0.183), (0.604, 0.445), (0.500, 0.538), (0.500, 0.183)]
  | .bottomLeft  => [(0.392, 0.472), (0.500, 0.567), (0.500, 0.697), (0.392, 0.472)]
  | .bottomRight => [(0.605, 0.472), (0.500, 0.567), (0.500, 0.697), (0.605, 0.472)]

/-- `mirrors`: the mirror-direction map pairing each region with its diagonal
partner. -/
def mirrors : Region → Region
  | .topLeft     => .bottomRight
  | .topRight    => .bottomLeft
  | .bottomLeft  => .topRight
  | .bottomRight => .topLeft

/-- `WATERMARK` constant. -/
def WATERMARK : String := "ethwallpaper.co"

/-- `WATERMARK_OPACITY` constant. -/
def WATERMARK_OPACITY : ℚ := 0.3

/-- `FONT` constant. -/
def FONT : String := "Aquabase.ttf"

/-- Signed area test: on which side of the directed edge `a → b` the point `p`
lies. -/
def cross (a b p : Pt) : ℚ :=
  (b.1 - a.1) * (p.2 - a.2) - (b.2 - a.2) * (p.1 - a.1)

/-- The directed edges of a closed ring (consecutive vertex pairs; since the
first vertex is repeated at the end, this closes the polygon). -/
def ringEdges (ring : List Pt) : List (Pt × Pt) := ring.zip ring.tail

/-- Model of the external geometry collaborator's
`Polygon(magic).contains(Point(x, y))` for the convex closed rings the program
builds: true exactly for points strictly inside the polygon (shapely's
`contains` excludes the boundary), i.e. strictly on one same side of every
edge. -/
def containsPoint (ring : List Pt) (p : Pt) : Bool :=
  ((ringEdges ring).all fun e => decide (0 < cross e.1 e.2 p)) ||
  ((ringEdges ring).all fun e => decide (cross e.1 e.2 p < 0))

/-- Minimum x coordinate over a ring's vertices (`polygon.bounds`). -/
def minX : List Pt → ℚ
  | [] => 0
  | v :: vs => vs.foldl (fun m u => min m u.1) v.1

/-- Maximum x coordinate over a ring's vertices (`polygon.bounds`). -/
def maxX : List Pt → ℚ
  | [] => 0
  | v :: vs => vs.foldl (fun m u => max m u.1) v.1

/-- Minimum y coordinate over a ring's vertices (`polygon.bounds`). -/
def minY : List Pt → ℚ
  | [] => 0
  | v :: vs => vs.foldl (fun m u => min m u.2) v.2

/-- Maximum y coordinate over a ring's vertices (`polygon.bounds`). -/
def maxY : List Pt → ℚ
  | [] => 0
  | v :: vs => vs.foldl (fun m u => max m u.2) v.2

/-- Python `int()` on a real value: truncation toward zero. -/
def truncQ (q : ℚ) : ℤ := if 0 ≤ q then ⌊q⌋ else -⌊-q⌋

/-- `[a, a+1, ..., b-1]`, the integers enumerated by `range(a, b)`. -/
def intRange (a b : ℤ) : List ℤ := (List.range (b - a).toNat).map fun n : ℕ => a + (n : ℤ)

/-- The integer pixels enumerated by the nested loops
`for x in range(math.floor(min_x), math.ceil(max_x)):`
`  for y in range(math.floor(min_y), math.ceil(max_y)):`
in iteration order. -/
def pixelList (ring : List Pt) : List (ℤ × ℤ) :=
  (intRange ⌊minX ring⌋ ⌈maxX ring⌉).flatMap fun x =>
    (intRange ⌊minY ring⌋ ⌈maxY ring⌉).map fun y => (x, y)

/-- An integer pixel viewed as a rational point. -/
def pq (p : ℤ × ℤ) : Pt := ((p.1 : ℚ), (p.2 : ℚ))

/-- Per-channel brightness boost `limit = lambda x: int(min(x * 1.3, 255))`.
The multiplication is binary64 in the source; for every channel value
0 ≤ x ≤ 255 the double computation `x * 1.3` lands within 2⁻⁴⁴ of the exact
rational 13·x/10 (whose distance to the nearest integer is 0 or at least
1/10), and when 13·x/10 is an integer the double result is exactly that
integer, so the truncation below coincides with the source's for every
8-bit channel value. -/
def limit (x : ℕ) : ℕ := (truncQ (min ((x : ℚ) * (13 / 10)) 255)).toNat

/-- `filter(v)`: the per-channel brightness filter applied to an RGB pixel. -/
def filter (v : Pix) : Pix := (limit v.1, limit v.2.1, limit v.2.2)

/-- `scale(magic, scale, width, height)` over exact reals: converts relative
polygon co-ordinates to absolute pixel values, pushing each vertex radially
from the centre (0.5, 0.5) by the scale factor; `** 0.5` on a non-negative
float is modelled as `Real.sqrt`. -/
noncomputable def scale (magic : List (ℝ × ℝ)) (s width height : ℝ) : List (ℝ × ℝ) :=
  (magic.map fun v =>
    let dist := Real.sqrt ((v.2 - 0.5) ^ 2 + (v.1 - 0.5) ^ 2)
    let sin := (v.2 - 0.5) / dist
    let cos := (v.1 - 0.5) / dist
    (dist * s * cos + 0.5, dist * s * sin + 0.5)).map
  fun v => (v.1 * width, v.2 * height)

/-- Closed form of `scale` over the rationals (the square root cancels against
the division it feeds): proven to agree with `scale` on every vertex list
avoiding the centre in `scale_eq_scaleQ` below.  Used to run the geometry of
the main loop over exact rationals. -/
def scaleQ (magic : List Pt) (s width height : ℚ) : List Pt :=
  magic.map fun v =>
    ((1 / 2 + s * (v.1 - 1 / 2)) * width, (1 / 2 + s * (v.2 - 1 / 2)) * height)

/-- The rational-valued template table of casts of `magics` into the reals. -/
def magicsR (r : Region) : List (ℝ × ℝ) :=
  (magics r).map fun v => ((v.1 : ℝ), (v.2 : ℝ))

/-- The absolute polygon `main` stores back into the template table by
`magics[_] = scale(magic, eth_scale, width, height)`. -/
def ringAt (w h s : ℚ) (r : Region) : List Pt := scaleQ (magics r) s w h

/-- Contents of the global `magics` table after `main`'s scaling loop has
overwritten every entry (image width `w`, height `h`, scale factor `s`). -/
def mainTemplatesAfter (w h s : ℚ) : Region → List Pt := fun r => ringAt w h s r

/-- First vertex of a ring (`magic[0]`). -/
def vertex0 (ring : List Pt) : Pt := ring.headD (0, 0)

/-- The per-region translation
`(int(other[0][0] - magic[0][0]), int(other[0][1] - magic[0][1]))`
from a region to its mirrored source, `other = magics[mirrors[_]]`. -/
def transAt (w h s : ℚ) (r : Region) : ℤ × ℤ :=
  (truncQ ((vertex0 (ringAt w h s (mirrors r))).1 - (vertex0 (ringAt w h s r)).1),
   truncQ ((vertex0 (ringAt w h s (mirrors r))).2 - (vertex0 (ringAt w h s r)).2))

/-- One inner-loop body execution: if the pixel is inside the polygon, its
value is overwritten by the brightened pixel read — with no bounds check —
at `(x + x_trans, y + y_trans)` from the CURRENT image state (in-place
mutation: the read sees every earlier write of the same run). -/
def writeStep (ring : List Pt) (t : ℤ × ℤ) (st : Img) (p : ℤ × ℤ) : Img :=
  if containsPoint ring (pq p) then
    fun q => if q = p then filter (st (p.1 + t.1, p.2 + t.2)) else st q
  else st

/-- One region's remap pass: the bounding-box pixels processed in the source's
iteration order (x outer, y inner), mutating in place. -/
def inPlacePass (ring : List Pt) (t : ℤ × ℤ) (st : Img) : Img :=
  (pixelList ring).foldl (writeStep ring t) st

/-- The dict insertion order in which `main` processes the regions. -/
def regionOrder : List Region := [.topLeft, .topRight, .bottomLeft, .bottomRight]

/-- The pixel-remap stage of `main` (after cropping, before outline drawing
and watermarking): the four regions processed in dict order, in place. -/
def inPlaceRun (w h s : ℚ) (img : Img) : Img :=
  regionOrder.foldl (fun st r => inPlacePass (ringAt w h s r) (transAt w h s r) st) img

/-- Bounding-box membership for an integer pixel: exactly membership in the
iteration ranges of the nested loops. -/
def inBBoxB (ring : List Pt) (p : ℤ × ℤ) : Bool :=
  decide (⌊minX ring⌋ ≤ p.1) && decide (p.1 < ⌈maxX ring⌉) &&
  decide (⌊minY ring⌋ ≤ p.2) && decide (p.2 < ⌈maxY ring⌉)

/-- Batch (order-independent) form of one remap pass: every contained
bounding-box pixel receives the brightened translated pixel read from the
state the pass started in.  `inPlacePass_eq_batchPass` below shows the
in-place pass coincides with this form whenever no read of the pass lands
inside the region being written. -/
def batchPass (ring : List Pt) (t : ℤ × ℤ) (img : Img) : Img := fun p =>
  if inBBoxB ring p && containsPoint ring (pq p) then
    filter (img (p.1 + t.1, p.2 + t.2))
  else img p

/-- The snapshot re-architecture described by the spec: each region's mirrored
source pixel is read from an immutable snapshot of the original (pre-remap)
grid, writes going to the output grid. -/
def snapshotRun (w h s : ℚ) (img : Img) : Img :=
  regionOrder.foldl (fun st r => fun p =>
    if inBBoxB (ringAt w h s r) p && containsPoint (ringAt w h s r) (pq p) then
      filter (img (p.1 + (transAt w h s r).1, p.2 + (transAt w h s r).2))
    else st p) img

/-- The uniform mid-gray 1920×1266 test image (total on the model grid; the
run only ever reads coordinates, never sizes). -/
def grayImage : Img := fun _ => (128, 128, 128)

/-- The crop box `load_image` passes to `im.crop`:
`(diff / 2, 0, m * height, height)` when wider than the target ratio,
`(0, diff / 2, width, width / m)` otherwise, with `m = 1920.00 / 1266`. -/
def cropBox (width height : ℚ) : ℚ × ℚ × ℚ × ℚ :=
  let m : ℚ := 1920 / 1266
  if width / height > m then
    ((width - m * height) / 2, 0, m * height, height)
  else
    (0, (height - width / m) / 2, width, width / m)

/-- Modelled from the spec: the centred fixed-aspect-ratio crop the spec
describes ("crop horizontally if wider than ratio, vertically if taller,
centered") — equal margins removed from the two cropped sides, so the
retained box ends at `width - diff / 2` (resp. `height - diff / 2`). -/
def centeredCropBox (width height : ℚ) : ℚ × ℚ × ℚ × ℚ :=
  let m : ℚ := 1920 / 1266
  if width / height > m then
    ((width - m * height) / 2, 0, (width + m * height) / 2, height)
  else
    (0, (height - width / m) / 2, width, (height + width / m) / 2)

/-- The spec's formula for the brightness filter channel:
`min(round(v × 1.3), 255)`. -/
def specFilterChannel (v : ℕ) : ℕ := min (round ((v : ℚ) * (13 / 10))).toNat 255

/-- Outcome of the `__main__` argument handling. -/
inductive CliOutcome where
  | usage
  | inputError
  | run (input output : String) (scaleArg : Option String)
deriving DecidableEq, Repr

/-- The `if __name__ == "__main__":` dispatch.  `argv` is the full argument
vector including the program name (so "fewer than two positional arguments"
is `argv.length < 3`); `fileOk` models `os.path.isfile`. -/
def cliDispatch (argv : List String) (fileOk : String → Bool) : CliOutcome :=
  if argv.length < 3 then .usage
  else if !fileOk (argv.getD 1 "") then .inputError
  else if argv.length = 3 then .run (argv.getD 1 "") (argv.getD 2 "") none
  else .run (argv.getD 1 "") (argv.getD 2 "") (some (argv.getD 3 ""))

/-- Exit code of each outcome: both handled error paths call `sys.exit(0)`. -/
def cliExitCode : CliOutcome → ℕ
  | .usage => 0
  | .inputError => 0
  | .run _ _ _ => 0

/-- Lines printed to standard output by the two handled error paths. -/
def cliMessage : CliOutcome → List String
  | .usage => ["error: missing arguments",
               "usage: ./main.py INPUT_IMAGE OUTPUT_IMAGE [ETH_SCALE]"]
  | .inputError => ["error: cannot open input file"]
  | .run _ _ _ => []

/-- Whether the outcome proceeds into `main` (opening, decoding and processing
the input image). -/
def cliProcesses : CliOutcome → Bool
  | .run _ _ _ => true
  | _ => false

/-- Ceiling as a negated floor, to let `norm_num` evaluate concrete ceilings. -/
theorem ceilQ_eq (a : ℚ) : (⌈a⌉ : ℤ) = -⌊-a⌋ := by rw [Int.floor_neg, neg_neg]

/-- Containment in a four-vertex closed ring unfolded to the three edge sign
tests. -/
theorem containsPoint_quad_iff (a b c d p : Pt) :
    containsPoint [a, b, c, d] p = true ↔
      (0 < cross a b p ∧ 0 < cross b c p ∧ 0 < cross c d p) ∨
      (cross a b p < 0 ∧ cross b c p < 0 ∧ cross c d p < 0) := by
  simp [containsPoint, ringEdges, List.zip, and_assoc]

/-- `intRange` enumerates exactly the integers of `[a, b)`. -/
theorem mem_intRange {a b x : ℤ} : x ∈ intRange a b ↔ a ≤ x ∧ x < b := by
  simp only [intRange, List.mem_map, List.mem_range]
  constructor
  · rintro ⟨i, hi, rfl⟩
    rw [Int.lt_toNat] at hi
    have h2 : (0 : ℤ) ≤ (i : ℤ) := by positivity
    constructor <;> linarith
  · intro ⟨h1, h2⟩
    refine ⟨(x - a).toNat, ?_, ?_⟩
    · rw [Int.lt_toNat, Int.toNat_of_nonneg (by linarith)]
      linarith
    · rw [Int.toNat_of_nonneg (by linarith)]
      ring

/-- The nested loops enumerate exactly the bounding-box pixels. -/
theorem mem_pixelList {ring : List Pt} {p : ℤ × ℤ} :
    p ∈ pixelList ring ↔ inBBoxB ring p = true := by
  obtain ⟨px, py⟩ := p
  simp only [pixelList, List.mem_flatMap, List.mem_map, inBBoxB, Bool.and_eq_true,
    decide_eq_true_eq]
  constructor
  · rintro ⟨x, hx, y, hy, hp⟩
    obtain ⟨hx1, hx2⟩ := mem_intRange.mp hx
    obtain ⟨hy1, hy2⟩ := mem_intRange.mp hy
    obtain ⟨rfl, rfl⟩ := Prod.mk.injEq .. ▸ hp
    exact ⟨⟨⟨hx1, hx2⟩, hy1⟩, hy2⟩
  · intro ⟨⟨⟨hx1, hx2⟩, hy1⟩, hy2⟩
    exact ⟨px, mem_intRange.mpr ⟨hx1, hx2⟩, py, mem_intRange.mpr ⟨hy1, hy2⟩, rfl⟩

/-- Core commutation lemma: folding the in-place write step over any pixel
list equals the batch update, provided no contained pixel's translated read
target is itself contained (`halias`), so no read of the pass ever observes a
write of the same pass. -/
theorem foldl_writeStep_eq (ring : List Pt) (t : ℤ × ℤ)
    (halias : ∀ p : ℤ × ℤ, containsPoint ring (pq p) = true →
      containsPoint ring (pq (p.1 + t.1, p.2 + t.2)) = false) :
    ∀ (l : List (ℤ × ℤ)) (st img : Img),
      (∀ q, containsPoint ring (pq q) = false → st q = img q) →
      l.foldl (writeStep ring t) st = fun p =>
        if p ∈ l ∧ containsPoint ring (pq p) = true then
          filter (img (p.1 + t.1, p.2 + t.2))
        else st p := by
  intro l
  induction l with
  | nil =>
    intro st img _
    funext p
    simp
  | cons a l ih =>
    intro st img hst
    rw [List.foldl_cons]
    by_cases ha : containsPoint ring (pq a) = true
    · have hread : containsPoint ring (pq (a.1 + t.1, a.2 + t.2)) = false := halias a ha
      have happ : ∀ q, writeStep ring t st a q =
          if q = a then filter (st (a.1 + t.1, a.2 + t.2)) else st q := by
        intro q
        unfold writeStep
        rw [if_pos ha]
      have hst' : ∀ q, containsPoint ring (pq q) = false →
          (writeStep ring t st a) q = img q := by
        intro q hq
        rw [happ q]
        have hqa : q ≠ a := by rintro rfl; simp [ha] at hq
        rw [if_neg hqa]
        exact hst q hq
      rw [ih _ img hst']
      funext p
      by_cases hc : containsPoint ring (pq p) = true
      · by_cases hpl : p ∈ l
        · rw [if_pos ⟨hpl, hc⟩, if_pos ⟨List.mem_cons_of_mem a hpl, hc⟩]
        · rw [if_neg fun h => hpl h.1, happ p]
          by_cases hpa : p = a
          · subst hpa
            rw [if_pos rfl, if_pos ⟨List.mem_cons_self _ _, hc⟩, hst _ hread]
          · rw [if_neg hpa,
              if_neg fun h => (List.mem_cons.mp h.1).elim hpa hpl]
      · rw [if_neg fun h => hc h.2, happ p]
        have hpa : p ≠ a := by rintro rfl; exact hc ha
        rw [if_neg hpa, if_neg fun h => hc h.2]
    · have hstep : writeStep ring t st a = st := by
        unfold writeStep
        rw [if_neg ha]
      rw [hstep, ih st img hst]
      funext p
      by_cases hc : containsPoint ring (pq p) = true
      · have hpa : p ≠ a := by rintro rfl; exact ha hc
        by_cases hpl : p ∈ l
        · rw [if_pos ⟨hpl, hc⟩, if_pos ⟨List.mem_cons_of_mem a hpl, hc⟩]
        · rw [if_neg fun h => hpl h.1,
            if_neg fun h => (List.mem_cons.mp h.1).elim hpa hpl]
      · rw [if_neg fun h => hc h.2, if_neg fun h => hc h.2]

/-- An in-place remap pass equals the batch pass whenever no contained pixel
reads a contained (hence possibly already rewritten) position. -/
theorem inPlacePass_eq_batchPass (ring : List Pt) (t : ℤ × ℤ)
    (halias : ∀ p : ℤ × ℤ, containsPoint ring (pq p) = true →
      containsPoint ring (pq (p.1 + t.1, p.2 + t.2)) = false) (img : Img) :
    inPlacePass ring t img = batchPass ring t img := by
  unfold inPlacePass batchPass
  rw [foldl_writeStep_eq ring t halias (pixelList ring) img img fun _ _ => rfl]
  funext p
  have hiff : ((inBBoxB ring p && containsPoint ring (pq p)) = true) ↔
      (p ∈ pixelList ring ∧ containsPoint ring (pq p) = true) := by
    rw [Bool.and_eq_true, mem_pixelList]
  by_cases h : p ∈ pixelList ring ∧ containsPoint ring (pq p) = true
  · rw [if_pos h, if_pos (hiff.mpr h)]
  · rw [if_neg h, if_neg fun hh => h (hiff.mp hh)]

/-! ### Concrete values of the scaled rings and translations at width 1920,
height 1266, scale factor 1. -/

theorem ringTLv : ringAt 1920 1266 1 Region.topLeft =
    [(960, 231678/1000), (75456/100, 56337/100), (960, 681108/1000), (960, 231678/1000)] := by
  norm_num [ringAt, scaleQ, magics]

theorem ringTRv : ringAt 1920 1266 1 Region.topRight =
    [(960, 231678/1000), (115968/100, 56337/100), (960, 681108/1000), (960, 231678/1000)] := by
  norm_num [ringAt, scaleQ, magics]

theorem ringBLv : ringAt 1920 1266 1 Region.bottomLeft =
    [(75264/100, 597552/1000), (960, 717822/1000), (960, 882402/1000), (75264/100, 597552/1000)] := by
  norm_num [ringAt, scaleQ, magics]

theorem ringBRv : ringAt 1920 1266 1 Region.bottomRight =
    [(11616/10, 597552/1000), (960, 717822/1000), (960, 882402/1000), (11616/10, 597552/1000)] := by
  norm_num [ringAt, scaleQ, magics]

theorem transTLv : transAt 1920 1266 1 Region.topLeft = (201, 365) := by
  norm_num [transAt, ringAt, scaleQ, magics, mirrors, vertex0, truncQ]

theorem transTRv : transAt 1920 1266 1 Region.topRight = (-207, 365) := by
  norm_num [transAt, ringAt, scaleQ, magics, mirrors, vertex0, truncQ]

theorem transBLv : transAt 1920 1266 1 Region.bottomLeft = (207, -365) := by
  norm_num [transAt, ringAt, scaleQ, magics, mirrors, vertex0, truncQ]

theorem transBRv : transAt 1920 1266 1 Region.bottomRight = (-201, -365) := by
  norm_num [transAt, ringAt, scaleQ, magics, mirrors, vertex0, truncQ]

/-! ### No pass of the 1920×1266 scale-1 run reads a position written in the
same pass: each region's translated copy misses the region itself on integer
points. -/

theorem haliasTL (p : ℤ × ℤ)
    (h : containsPoint (ringAt 1920 1266 1 Region.topLeft) (pq p) = true) :
    containsPoint (ringAt 1920 1266 1 Region.topLeft) (pq (p.1 + 201, p.2 + 365)) = false := by
  rw [ringTLv] at h ⊢
  rw [Bool.eq_false_iff]
  intro h2
  rw [containsPoint_quad_iff] at h h2
  simp only [cross, pq] at h h2
  push_cast at h h2
  obtain ⟨h1, h2', h3⟩ | ⟨h1, h2', h3⟩ := h <;>
    obtain ⟨g1, g2, g3⟩ | ⟨g1, g2, g3⟩ := h2 <;>
    linarith

theorem haliasTR (p : ℤ × ℤ)
    (h : containsPoint (ringAt 1920 1266 1 Region.topRight) (pq p) = true) :
    containsPoint (ringAt 1920 1266 1 Region.topRight) (pq (p.1 + -207, p.2 + 365)) = false := by
  rw [ringTRv] at h ⊢
  rw [Bool.eq_false_iff]
  intro h2
  rw [containsPoint_quad_iff] at h h2
  simp only [cross, pq] at h h2
  push_cast at h h2
  obtain ⟨h1, h2', h3⟩ | ⟨h1, h2', h3⟩ := h <;>
    obtain ⟨g1, g2, g3⟩ | ⟨g1, g2, g3⟩ := h2 <;>
    linarith

theorem haliasBL (p : ℤ × ℤ)
    (h : containsPoint (ringAt 1920 1266 1 Region.bottomLeft) (pq p) = true) :
    containsPoint (ringAt 1920 1266 1 Region.bottomLeft) (pq (p.1 + 207, p.2 + -365)) = false := by
  rw [ringBLv] at h ⊢
  rw [Bool.eq_false_iff]
  intro h2
  rw [containsPoint_quad_iff] at h h2
  simp only [cross, pq] at h h2
  push_cast at h h2
  obtain ⟨h1, h2', h3⟩ | ⟨h1, h2', h3⟩ := h <;>
    obtain ⟨g1, g2, g3⟩ | ⟨g1, g2, g3⟩ := h2 <;>
    linarith

theorem haliasBR (p : ℤ × ℤ)
    (h : containsPoint (ringAt 1920 1266 1 Region.bottomRight) (pq p) = true) :
    containsPoint (ringAt 1920 1266 1 Region.bottomRight) (pq (p.1 + -201, p.2 + -365)) = false := by
  rw [ringBRv] at h ⊢
  rw [Bool.eq_false_iff]
  intro h2
  rw [containsPoint_quad_iff] at h h2
  simp only [cross, pq] at h h2
  push_cast at h h2
  obtain ⟨h1, h2', h3⟩ | ⟨h1, h2', h3⟩ := h <;>
    obtain ⟨g1, g2, g3⟩ | ⟨g1, g2, g3⟩ := h2
  · linarith
  · linarith
  · linarith
  · -- the two containments confine p.1 to the sliver (1161, 1161.6): no integer
    have hq : (1161 : ℚ) < (p.1 : ℚ) := by linarith
    have hz : (1161 : ℤ) < p.1 := by exact_mod_cast hq
    have hq2 : (1162 : ℚ) ≤ (p.1 : ℚ) := by exact_mod_cast (by omega : (1162 : ℤ) ≤ p.1)
    linarith

/-! ### The four region interiors are pairwise disjoint on integer points. -/

theorem disjTLTR (p : ℤ × ℤ)
    (h : containsPoint (ringAt 1920 1266 1 Region.topLeft) (pq p) = true) :
    containsPoint (ringAt 1920 1266 1 Region.topRight) (pq p) = false := by
  rw [ringTLv] at h
  rw [ringTRv, Bool.eq_false_iff]
  intro h2
  rw [containsPoint_quad_iff] at h h2
  simp only [cross, pq] at h h2
  obtain ⟨h1, h2', h3⟩ | ⟨h1, h2', h3⟩ := h <;>
    obtain ⟨g1, g2, g3⟩ | ⟨g1, g2, g3⟩ := h2 <;>
    linarith

theorem disjTLBL (p : ℤ × ℤ)
    (h : containsPoint (ringAt 1920 1266 1 Region.topLeft) (pq p) = true) :
    containsPoint (ringAt 1920 1266 1 Region.bottomLeft) (pq p) = false := by
  rw [ringTLv] at h
  rw [ringBLv, Bool.eq_false_iff]
  intro h2
  rw [containsPoint_quad_iff] at h h2
  simp only [cross, pq] at h h2
  obtain ⟨h1, h2', h3⟩ | ⟨h1, h2', h3⟩ := h <;>
    obtain ⟨g1, g2, g3⟩ | ⟨g1, g2, g3⟩ := h2 <;>
    linarith

theorem disjTLBR (p : ℤ × ℤ)
    (h : containsPoint (ringAt 1920 1266 1 Region.topLeft) (pq p) = true) :
    containsPoint (ringAt 1920 1266 1 Region.bottomRight) (pq p) = false := by
  rw [ringTLv] at h
  rw [ringBRv, Bool.eq_false_iff]
  intro h2
  rw [containsPoint_quad_iff] at h h2
  simp only [cross, pq] at h h2
  obtain ⟨h1, h2', h3⟩ | ⟨h1, h2', h3⟩ := h <;>
    obtain ⟨g1, g2, g3⟩ | ⟨g1, g2, g3⟩ := h2 <;>
    linarith

theorem disjTRBL (p : ℤ × ℤ)
    (h : containsPoint (ringAt 1920 1266 1 Region.topRight) (pq p) = true) :
    containsPoint (ringAt 1920 1266 1 Region.bottomLeft) (pq p) = false := by
  rw [ringTRv] at h
  rw [ringBLv, Bool.eq_false_iff]
  intro h2
  rw [containsPoint_quad_iff] at h h2
  simp only [cross, pq] at h h2
  obtain ⟨h1, h2', h3⟩ | ⟨h1, h2', h3⟩ := h <;>
    obtain ⟨g1, g2, g3⟩ | ⟨g1, g2, g3⟩ := h2 <;>
    linarith

theorem disjTRBR (p : ℤ × ℤ)
    (h : containsPoint (ringAt 1920 1266 1 Region.topRight) (pq p) = true) :
    containsPoint (ringAt 1920 1266 1 Region.bottomRight) (pq p) = false := by
  rw [ringTRv] at h
  rw [ringBRv, Bool.eq_false_iff]
  intro h2
  rw [containsPoint_quad_iff] at h h2
  simp only [cross, pq] at h h2
  obtain ⟨h1, h2', h3⟩ | ⟨h1, h2', h3⟩ := h <;>
    obtain ⟨g1, g2, g3⟩ | ⟨g1, g2, g3⟩ := h2 <;>
    linarith

theorem disjBLBR (p : ℤ × ℤ)
    (h : containsPoint (ringAt 1920 1266 1 Region.bottomLeft) (pq p) = true) :
    containsPoint (ringAt 1920 1266 1 Region.bottomRight) (pq p) = false := by
  rw [ringBLv] at h
  rw [ringBRv, Bool.eq_false_iff]
  intro h2
  rw [containsPoint_quad_iff] at h h2
  simp only [cross, pq] at h h2
  obtain ⟨h1, h2', h3⟩ | ⟨h1, h2', h3⟩ := h <;>
    obtain ⟨g1, g2, g3⟩ | ⟨g1, g2, g3⟩ := h2 <;>
    linarith

/-! ### Where each region's reads cannot land. -/

/-- Top-right's reads (translated by (-207, 365)) never land inside top-left. -/
theorem readTRnotTL (p : ℤ × ℤ)
    (h : containsPoint (ringAt 1920 1266 1 Region.topRight) (pq p) = true) :
    containsPoint (ringAt 1920 1266 1 Region.topLeft) (pq (p.1 + -207, p.2 + 365)) = false := by
  rw [ringTRv] at h
  rw [ringTLv, Bool.eq_false_iff]
  intro h2
  rw [containsPoint_quad_iff] at h h2
  simp only [cross, pq] at h h2
  push_cast at h h2
  obtain ⟨h1, h2', h3⟩ | ⟨h1, h2', h3⟩ := h <;>
    obtain ⟨g1, g2, g3⟩ | ⟨g1, g2, g3⟩ := h2 <;>
    linarith

/-- Bottom-left's reads (translated by (207, -365)) never land inside
top-left: the two containments confine p.1 to (752.64, 753), holding no
integer. -/
theorem readBLnotTL (p : ℤ × ℤ)
    (h : containsPoint (ringAt 1920 1266 1 Region.bottomLeft) (pq p) = true) :
    containsPoint (ringAt 1920 1266 1 Region.topLeft) (pq (p.1 + 207, p.2 + -365)) = false := by
  rw [ringBLv] at h
  rw [ringTLv, Bool.eq_false_iff]
  intro h2
  rw [containsPoint_quad_iff] at h h2
  simp only [cross, pq] at h h2
  push_cast at h h2
  obtain ⟨h1, h2', h3⟩ | ⟨h1, h2', h3⟩ := h <;>
    obtain ⟨g1, g2, g3⟩ | ⟨g1, g2, g3⟩ := h2 <;>
  · first
    | linarith
    | · have hq : (p.1 : ℚ) < 753 := by linarith
        have hz : p.1 < (753 : ℤ) := by exact_mod_cast hq
        have hq2 : (p.1 : ℚ) ≤ 752 := by exact_mod_cast (by omega : p.1 ≤ (752 : ℤ))
        linarith

/-- Bottom-right's reads (translated by (-201, -365)) never land inside
top-right: the two containments confine p.1 to (1161, 1161.6), holding no
integer. -/
theorem readBRnotTR (p : ℤ × ℤ)
    (h : containsPoint (ringAt 1920 1266 1 Region.bottomRight) (pq p) = true) :
    containsPoint (ringAt 1920 1266 1 Region.topRight) (pq (p.1 + -201, p.2 + -365)) = false := by
  rw [ringBRv] at h
  rw [ringTRv, Bool.eq_false_iff]
  intro h2
  rw [containsPoint_quad_iff] at h h2
  simp only [cross, pq] at h h2
  push_cast at h h2
  obtain ⟨h1, h2', h3⟩ | ⟨h1, h2', h3⟩ := h <;>
    obtain ⟨g1, g2, g3⟩ | ⟨g1, g2, g3⟩ := h2 <;>
  · first
    | linarith
    | · have hq : (1161 : ℚ) < (p.1 : ℚ) := by linarith
        have hz : (1161 : ℤ) < p.1 := by exact_mod_cast hq
        have hq2 : (1162 : ℚ) ≤ (p.1 : ℚ) := by exact_mod_cast (by omega : (1162 : ℤ) ≤ p.1)
        linarith

/-- Bottom-right's reads never land inside bottom-left. -/
theorem readBRnotBL (p : ℤ × ℤ)
    (h : containsPoint (ringAt 1920 1266 1 Region.bottomRight) (pq p) = true) :
    containsPoint (ringAt 1920 1266 1 Region.bottomLeft) (pq (p.1 + -201, p.2 + -365)) = false := by
  rw [ringBRv] at h
  rw [ringBLv, Bool.eq_false_iff]
  intro h2
  rw [containsPoint_quad_iff] at h h2
  simp only [cross, pq] at h h2
  push_cast at h h2
  obtain ⟨h1, h2', h3⟩ | ⟨h1, h2', h3⟩ := h <;>
    obtain ⟨g1, g2, g3⟩ | ⟨g1, g2, g3⟩ := h2 <;>
    linarith

/-! ### Every contained pixel lies in the iterated bounding box. -/

theorem bboxTL (p : ℤ × ℤ)
    (h : containsPoint (ringAt 1920 1266 1 Region.topLeft) (pq p) = true) :
    inBBoxB (ringAt 1920 1266 1 Region.topLeft) p = true := by
  rw [ringTLv] at h
  rw [containsPoint_quad_iff] at h
  simp only [cross, pq] at h
  have key : (754 : ℤ) ≤ p.1 ∧ p.1 < 960 ∧ (231 : ℤ) ≤ p.2 ∧ p.2 < 682 := by
    obtain ⟨h1, h2, h3⟩ | ⟨h1, h2, h3⟩ := h
    · exfalso; linarith
    · refine ⟨?_, ?_, ?_, ?_⟩
      · exact_mod_cast (by linarith : (754 : ℚ) ≤ (p.1 : ℚ))
      · exact_mod_cast (by linarith : (p.1 : ℚ) < 960)
      · exact_mod_cast (by linarith : (231 : ℚ) ≤ (p.2 : ℚ))
      · exact_mod_cast (by linarith : (p.2 : ℚ) < 682)
  rw [ringTLv, inBBoxB]
  norm_num [minX, maxX, minY, maxY, ceilQ_eq]
  omega

theorem bboxTR (p : ℤ × ℤ)
    (h : containsPoint (ringAt 1920 1266 1 Region.topRight) (pq p) = true) :
    inBBoxB (ringAt 1920 1266 1 Region.topRight) p = true := by
  rw [ringTRv] at h
  rw [containsPoint_quad_iff] at h
  simp only [cross, pq] at h
  have key : (960 : ℤ) ≤ p.1 ∧ p.1 < 1160 ∧ (231 : ℤ) ≤ p.2 ∧ p.2 < 682 := by
    obtain ⟨h1, h2, h3⟩ | ⟨h1, h2, h3⟩ := h
    · refine ⟨?_, ?_, ?_, ?_⟩
      · exact_mod_cast (by linarith : (960 : ℚ) ≤ (p.1 : ℚ))
      · exact_mod_cast (by linarith : (p.1 : ℚ) < 1160)
      · exact_mod_cast (by linarith : (231 : ℚ) ≤ (p.2 : ℚ))
      · exact_mod_cast (by linarith : (p.2 : ℚ) < 682)
    · exfalso; linarith
  rw [ringTRv, inBBoxB]
  norm_num [minX, maxX, minY, maxY, ceilQ_eq]
  omega

theorem bboxBL (p : ℤ × ℤ)
    (h : containsPoint (ringAt 1920 1266 1 Region.bottomLeft) (pq p) = true) :
    inBBoxB (ringAt 1920 1266 1 Region.bottomLeft) p = true := by
  rw [ringBLv] at h
  rw [containsPoint_quad_iff] at h
  simp only [cross, pq] at h
  have key : (752 : ℤ) ≤ p.1 ∧ p.1 < 960 ∧ (597 : ℤ) ≤ p.2 ∧ p.2 < 883 := by
    obtain ⟨h1, h2, h3⟩ | ⟨h1, h2, h3⟩ := h
    · refine ⟨?_, ?_, ?_, ?_⟩
      · exact_mod_cast (by linarith : (752 : ℚ) ≤ (p.1 : ℚ))
      · exact_mod_cast (by linarith : (p.1 : ℚ) < 960)
      · exact_mod_cast (by linarith : (597 : ℚ) ≤ (p.2 : ℚ))
      · exact_mod_cast (by linarith : (p.2 : ℚ) < 883)
    · exfalso; linarith
  rw [ringBLv, inBBoxB]
  norm_num [minX, maxX, minY, maxY, ceilQ_eq]
  omega

theorem bboxBR (p : ℤ × ℤ)
    (h : containsPoint (ringAt 1920 1266 1 Region.bottomRight) (pq p) = true) :
    inBBoxB (ringAt 1920 1266 1 Region.bottomRight) p = true := by
  rw [ringBRv] at h
  rw [containsPoint_quad_iff] at h
  simp only [cross, pq] at h
  have key : (960 : ℤ) ≤ p.1 ∧ p.1 < 1162 ∧ (597 : ℤ) ≤ p.2 ∧ p.2 < 883 := by
    obtain ⟨h1, h2, h3⟩ | ⟨h1, h2, h3⟩ := h
    · exfalso; linarith
    · refine ⟨?_, ?_, ?_, ?_⟩
      · exact_mod_cast (by linarith : (960 : ℚ) ≤ (p.1 : ℚ))
      · exact_mod_cast (by linarith : (p.1 : ℚ) < 1162)
      · exact_mod_cast (by linarith : (597 : ℚ) ≤ (p.2 : ℚ))
      · exact_mod_cast (by linarith : (p.2 : ℚ) < 883)
  rw [ringBRv, inBBoxB]
  norm_num [minX, maxX, minY, maxY, ceilQ_eq]
  omega

/-! ### Concrete pixel values of the filter and containment facts used by the
end-to-end scenarios. -/

theorem filterGrayv : filter (128, 128, 128) = (166, 166, 166) := by
  norm_num [filter, limit, truncQ]; decide

theorem filter166v : filter (166, 166, 166) = (215, 215, 215) := by
  norm_num [filter, limit, truncQ]; decide

theorem cBR1156 :
    containsPoint (ringAt 1920 1266 1 Region.bottomRight) (pq (1156, 605)) = true := by
  norm_num [containsPoint, ringAt, scaleQ, magics, ringEdges, cross, pq]

theorem cTL1156 :
    containsPoint (ringAt 1920 1266 1 Region.topLeft) (pq (1156, 605)) = false := by
  norm_num [containsPoint, ringAt, scaleQ, magics, ringEdges, cross, pq]

theorem cTR1156 :
    containsPoint (ringAt 1920 1266 1 Region.topRight) (pq (1156, 605)) = false := by
  norm_num [containsPoint, ringAt, scaleQ, magics, ringEdges, cross, pq]

theorem cBL1156 :
    containsPoint (ringAt 1920 1266 1 Region.bottomLeft) (pq (1156, 605)) = false := by
  norm_num [containsPoint, ringAt, scaleQ, magics, ringEdges, cross, pq]

theorem cTL955 :
    containsPoint (ringAt 1920 1266 1 Region.topLeft) (pq (955, 240)) = true := by
  norm_num [containsPoint, ringAt, scaleQ, magics, ringEdges, cross, pq]

theorem cBL754 :
    containsPoint (ringAt 1920 1266 1 Region.bottomLeft) (pq (754, 599)) = true := by
  norm_num [containsPoint, ringAt, scaleQ, magics, ringEdges, cross, pq]

theorem cTR961 :
    containsPoint (ringAt 1920 1266 1 Region.topRight) (pq (961, 234)) = true := by
  norm_num [containsPoint, ringAt, scaleQ, magics, ringEdges, cross, pq]

/-! ### The in-place run at 1920×1266, scale 1, decomposed into batch passes
(possible because, by the four `halias` lemmas, no pass reads a position it
itself writes). -/

theorem inPlaceRun19201266 (img : Img) :
    inPlaceRun 1920 1266 1 img =
      batchPass (ringAt 1920 1266 1 Region.bottomRight) (-201, -365)
        (batchPass (ringAt 1920 1266 1 Region.bottomLeft) (207, -365)
          (batchPass (ringAt 1920 1266 1 Region.topRight) (-207, 365)
            (batchPass (ringAt 1920 1266 1 Region.topLeft) (201, 365) img))) := by
  refine Eq.trans (b := List.foldl
    (fun st r => inPlacePass (ringAt 1920 1266 1 r) (transAt 1920 1266 1 r) st) img
    [Region.topLeft, Region.topRight, Region.bottomLeft, Region.bottomRight]) rfl ?_
  rw [List.foldl_cons, List.foldl_cons, List.foldl_cons, List.foldl_cons, List.foldl_nil]
  rw [transTLv, transTRv, transBLv, transBRv]
  rw [inPlacePass_eq_batchPass (ringAt 1920 1266 1 Region.topLeft) (201, 365) haliasTL,
      inPlacePass_eq_batchPass (ringAt 1920 1266 1 Region.topRight) (-207, 365) haliasTR,
      inPlacePass_eq_batchPass (ringAt 1920 1266 1 Region.bottomLeft) (207, -365) haliasBL,
      inPlacePass_eq_batchPass (ringAt 1920 1266 1 Region.bottomRight) (-201, -365) haliasBR]

/-- Full characterisation of the in-place remap of the uniform mid-gray
1920×1266 image at scale 1: pixels inside top-left or top-right become 166;
pixels inside bottom-left (resp. bottom-right) become 215 when their mirrored
read lands inside the already-rewritten top-right (resp. top-left) and 166
otherwise; all other pixels keep 128. -/
theorem inPlaceGrayChar (p : ℤ × ℤ) :
    inPlaceRun 1920 1266 1 grayImage p =
      (if containsPoint (ringAt 1920 1266 1 Region.topLeft) (pq p) then (166, 166, 166)
       else if containsPoint (ringAt 1920 1266 1 Region.topRight) (pq p) then (166, 166, 166)
       else if containsPoint (ringAt 1920 1266 1 Region.bottomLeft) (pq p) then
         (if containsPoint (ringAt 1920 1266 1 Region.topRight) (pq (p.1 + 207, p.2 + -365))
          then (215, 215, 215) else (166, 166, 166))
       else if containsPoint (ringAt 1920 1266 1 Region.bottomRight) (pq p) then
         (if containsPoint (ringAt 1920 1266 1 Region.topLeft) (pq (p.1 + -201, p.2 + -365))
          then (215, 215, 215) else (166, 166, 166))
       else (128, 128, 128)) := by
  rw [inPlaceRun19201266]
  by_cases htl : containsPoint (ringAt 1920 1266 1 Region.topLeft) (pq p) = true
  · have hbtl := bboxTL p htl
    have htr := disjTLTR p htl
    have hbl := disjTLBL p htl
    have hbr := disjTLBR p htl
    simp [batchPass, htl, hbtl, htr, hbl, hbr, grayImage, filterGrayv]
  · have htl' : containsPoint (ringAt 1920 1266 1 Region.topLeft) (pq p) = false :=
      Bool.eq_false_iff.mpr htl
    by_cases htr : containsPoint (ringAt 1920 1266 1 Region.topRight) (pq p) = true
    · have hbtr := bboxTR p htr
      have hbl := disjTRBL p htr
      have hbr := disjTRBR p htr
      have hread := readTRnotTL p htr
      simp [batchPass, htl', htr, hbtr, hbl, hbr, hread, grayImage, filterGrayv]
    · have htr' : containsPoint (ringAt 1920 1266 1 Region.topRight) (pq p) = false :=
        Bool.eq_false_iff.mpr htr
      by_cases hbl : containsPoint (ringAt 1920 1266 1 Region.bottomLeft) (pq p) = true
      · have hbbl := bboxBL p hbl
        have hbr := disjBLBR p hbl
        by_cases hq : containsPoint (ringAt 1920 1266 1 Region.topRight)
            (pq (p.1 + 207, p.2 + -365)) = true
        · have hbq := bboxTR _ hq
          simp [batchPass, htl', htr', hbl, hbbl, hbr, hq, hbq, grayImage,
            filterGrayv, filter166v]
        · have hq' : containsPoint (ringAt 1920 1266 1 Region.topRight)
              (pq (p.1 + 207, p.2 + -365)) = false := Bool.eq_false_iff.mpr hq
          have hreadTL := readBLnotTL p hbl
          simp [batchPass, htl', htr', hbl, hbbl, hbr, hq', hreadTL, grayImage, filterGrayv]
      · have hbl' : containsPoint (ringAt 1920 1266 1 Region.bottomLeft) (pq p) = false :=
          Bool.eq_false_iff.mpr hbl
        by_cases hbr : containsPoint (ringAt 1920 1266 1 Region.bottomRight) (pq p) = true
        · have hbbr := bboxBR p hbr
          have hrBL := readBRnotBL p hbr
          have hrTR := readBRnotTR p hbr
          by_cases hq : containsPoint (ringAt 1920 1266 1 Region.topLeft)
              (pq (p.1 + -201, p.2 + -365)) = true
          · have hbq := bboxTL _ hq
            simp [batchPass, htl', htr', hbl', hbr, hbbr, hrBL, hrTR, hq, hbq, grayImage,
              filterGrayv, filter166v]
          · have hq' : containsPoint (ringAt 1920 1266 1 Region.topLeft)
                (pq (p.1 + -201, p.2 + -365)) = false := Bool.eq_false_iff.mpr hq
            simp [batchPass, htl', htr', hbl', hbr, hbbr, hrBL, hrTR, hq', grayImage,
              filterGrayv]
        · have hbr' : containsPoint (ringAt 1920 1266 1 Region.bottomRight) (pq p) = false :=
            Bool.eq_false_iff.mpr hbr
          simp [batchPass, htl', htr', hbl', hbr', grayImage]

theorem cTL754 :
    containsPoint (ringAt 1920 1266 1 Region.topLeft) (pq (754, 599)) = false := by
  norm_num [containsPoint, ringAt, scaleQ, magics, ringEdges, cross, pq]

theorem cTR754 :
    containsPoint (ringAt 1920 1266 1 Region.topRight) (pq (754, 599)) = false := by
  norm_num [containsPoint, ringAt, scaleQ, magics, ringEdges, cross, pq]

/-- Pixel (1156, 605) lies strictly inside bottom-right, its mirrored read
(955, 240) strictly inside the already-rewritten top-left, so the in-place run
writes `filter(filter(128)) = 215` there. -/
theorem inPlaceGray1156 :
    inPlaceRun 1920 1266 1 grayImage (1156, 605) = (215, 215, 215) := by
  rw [inPlaceGrayChar (1156, 605)]
  have harith : (((1156, 605) : ℤ × ℤ).1 + -201, ((1156, 605) : ℤ × ℤ).2 + -365) =
      ((955 : ℤ), (240 : ℤ)) := by norm_num
  rw [cTL1156, cTR1156, cBL1156, cBR1156, harith, cTL955]
  norm_num

/-- Pixel (754, 599) lies strictly inside bottom-left, its mirrored read
(961, 234) strictly inside the already-rewritten top-right, so the in-place
run writes 215 there as well. -/
theorem inPlaceGray754 :
    inPlaceRun 1920 1266 1 grayImage (754, 599) = (215, 215, 215) := by
  rw [inPlaceGrayChar (754, 599)]
  have harith : (((754, 599) : ℤ × ℤ).1 + 207, ((754, 599) : ℤ × ℤ).2 + -365) =
      ((961 : ℤ), (234 : ℤ)) := by norm_num
  rw [cTL754, cTR754, cBL754, harith, cTR961]
  norm_num

/-- Under the snapshot design, every contained pixel of the uniform gray image
reads the original 128 and becomes 166; in particular pixel (1156, 605). -/
theorem snapshotGray1156 :
    snapshotRun 1920 1266 1 grayImage (1156, 605) = (166, 166, 166) := by
  have e : snapshotRun 1920 1266 1 grayImage = List.foldl (fun st r => fun p =>
      if inBBoxB (ringAt 1920 1266 1 r) p && containsPoint (ringAt 1920 1266 1 r) (pq p) then
        filter (grayImage (p.1 + (transAt 1920 1266 1 r).1, p.2 + (transAt 1920 1266 1 r).2))
      else st p) grayImage
      [Region.topLeft, Region.topRight, Region.bottomLeft, Region.bottomRight] := rfl
  have hb := bboxBR (1156, 605) cBR1156
  rw [e, List.foldl_cons, List.foldl_cons, List.foldl_cons, List.foldl_cons, List.foldl_nil]
  simp [cBR1156, cTL1156, cTR1156, cBL1156, hb, grayImage, filterGrayv]

/-! ### The geometry scaler over the reals: the radial distance cancels, and
the templates never hit the degenerate centre vertex. -/

/-- For vertex lists avoiding the centre, `scale` computes the radial closed
form (the square root cancels against the divisions feeding `sin`/`cos`). -/
theorem scale_eq_form (magic : List (ℝ × ℝ)) (s w h : ℝ)
    (hm : ∀ v ∈ magic, v ≠ (0.5, 0.5)) :
    scale magic s w h = magic.map fun v =>
      ((0.5 + s * (v.1 - 0.5)) * w, (0.5 + s * (v.2 - 0.5)) * h) := by
  unfold scale
  rw [List.map_map]
  apply List.map_congr_left
  intro v hv
  have hne := hm v hv
  obtain ⟨x, y⟩ := v
  simp only [Function.comp]
  have hxy : x ≠ 0.5 ∨ y ≠ 0.5 := by
    by_contra hc
    push_neg at hc
    exact hne (by rw [hc.1, hc.2])
  have hpos : 0 < (y - 0.5) ^ 2 + (x - 0.5) ^ 2 := by
    rcases hxy with hx | hy
    · have h1 : x - 0.5 ≠ 0 := sub_ne_zero.mpr hx
      positivity
    · have h1 : y - 0.5 ≠ 0 := sub_ne_zero.mpr hy
      positivity
  have hdne : Real.sqrt ((y - 0.5) ^ 2 + (x - 0.5) ^ 2) ≠ 0 :=
    ne_of_gt (Real.sqrt_pos.mpr hpos)
  simp only [Prod.mk.injEq]
  constructor
  · have hc : Real.sqrt ((y - 0.5) ^ 2 + (x - 0.5) ^ 2) * s *
        ((x - 0.5) / Real.sqrt ((y - 0.5) ^ 2 + (x - 0.5) ^ 2)) = s * (x - 0.5) := by
      field_simp
      ring
    rw [hc]
    ring
  · have hc : Real.sqrt ((y - 0.5) ^ 2 + (x - 0.5) ^ 2) * s *
        ((y - 0.5) / Real.sqrt ((y - 0.5) ^ 2 + (x - 0.5) ^ 2)) = s * (y - 0.5) := by
      field_simp
      ring
    rw [hc]
    ring

/-- No vertex of any of the four built-in templates equals the centre. -/
theorem magics_ne_center (r : Region) : ∀ v ∈ magics r, v ≠ ((1 : ℚ)/2, (1 : ℚ)/2) := by
  intro v hv hc
  subst hc
  fin_cases r <;> norm_num [magics, Prod.ext_iff] at hv

/-- Across the cast into the reals, the template vertices avoid the centre. -/
theorem magicsR_ne_center (r : Region) : ∀ v ∈ magicsR r, v ≠ ((0.5 : ℝ), (0.5 : ℝ)) := by
  intro v hv
  unfold magicsR at hv
  simp only [List.mem_map] at hv
  obtain ⟨u, hu, rfl⟩ := hv
  intro hc
  apply magics_ne_center r u hu
  have hc1 : (u.1 : ℝ) = 0.5 := congrArg Prod.fst hc
  have hc2 : (u.2 : ℝ) = 0.5 := congrArg Prod.snd hc
  rw [Prod.ext_iff]
  constructor
  · have : ((u.1 : ℝ)) = (((1 : ℚ)/2 : ℚ) : ℝ) := by rw [hc1]; norm_num
    exact_mod_cast this
  · have : ((u.2 : ℝ)) = (((1 : ℚ)/2 : ℚ) : ℝ) := by rw [hc2]; norm_num
    exact_mod_cast this

/-- Applying `scale` to a template agrees, across the cast into the reals,
with the exact rational closed form `scaleQ` — for every scale factor, width
and height.  This is the bridge justifying running the main loop's geometry
over exact rationals. -/
theorem scale_magics_eq_scaleQ (r : Region) (s w h : ℚ) :
    scale (magicsR r) (s : ℝ) (w : ℝ) (h : ℝ) =
      (scaleQ (magics r) s w h).map fun v => ((v.1 : ℝ), (v.2 : ℝ)) := by
  rw [scale_eq_form (magicsR r) _ _ _ (magicsR_ne_center r)]
  unfold magicsR scaleQ
  rw [List.map_map, List.map_map]
  apply List.map_congr_left
  intro v _
  simp only [Function.comp, Prod.mk.injEq]
  constructor
  · push_cast
    norm_num
  · push_cast
    norm_num

/-- Closed form of the brightness channel: floored 13·v/10, clamped at 255. -/
theorem limit_eq (v : ℕ) : limit v = min (13 * v / 10) 255 := by
  unfold limit truncQ
  rcases le_or_lt ((v : ℚ) * (13 / 10)) 255 with hle | hgt
  · rw [min_eq_left hle, if_pos (by positivity)]
    have hfl : ⌊(v : ℚ) * (13 / 10)⌋ = ((13 * v / 10 : ℕ) : ℤ) := by
      have hlow : (((13 * v / 10 : ℕ) : ℚ)) ≤ (v : ℚ) * (13 / 10) := by
        have h1 : 10 * (13 * v / 10 : ℕ) ≤ 13 * v := by omega
        have h1q : (10 : ℚ) * ((13 * v / 10 : ℕ) : ℚ) ≤ 13 * (v : ℚ) := by exact_mod_cast h1
        linarith
      have hhigh : (v : ℚ) * (13 / 10) < ((13 * v / 10 : ℕ) : ℚ) + 1 := by
        have h2 : 13 * v < 10 * (13 * v / 10 + 1 : ℕ) := by omega
        have h2q : 13 * (v : ℚ) < 10 * (((13 * v / 10 : ℕ) : ℚ) + 1) := by exact_mod_cast h2
        linarith
      rw [Int.floor_eq_iff]
      constructor
      · exact_mod_cast hlow
      · exact_mod_cast hhigh
    rw [hfl]
    have hb : 13 * v ≤ 2550 := by
      have : (13 : ℚ) * v ≤ 2550 := by linarith
      exact_mod_cast this
    have ht : (((13 * v / 10 : ℕ) : ℤ)).toNat = 13 * v / 10 := Int.toNat_natCast _
    rw [ht]
    omega
  · rw [min_eq_right hgt.le, if_pos (by norm_num)]
    have hf255 : (⌊(255 : ℚ)⌋ : ℤ) = 255 := by norm_num
    rw [hf255]
    have hv : 2550 < 13 * v := by
      have : (2550 : ℚ) < 13 * (v : ℚ) := by linarith
      exact_mod_cast this
    have ht : (255 : ℤ).toNat = 255 := rfl
    rw [ht]
    omega

/-! ## Claim theorems -/

/-- C1, counterexample: the snapshot re-architecture does NOT reproduce the
in-place reference output.  On the uniform mid-gray 1920×1266 image at scale 1,
the in-place run writes 215 at pixel (1156, 605) — its mirrored read (955, 240)
was already overwritten by the earlier top-left pass — while the snapshot
design yields 166 there, so the two procedures produce different images. -/
theorem c1_snapshot_differs_from_inplace :
    inPlaceRun 1920 1266 1 grayImage (1156, 605) = (215, 215, 215) ∧
    snapshotRun 1920 1266 1 grayImage (1156, 605) = (166, 166, 166) ∧
    inPlaceRun 1920 1266 1 grayImage ≠ snapshotRun 1920 1266 1 grayImage :=
  ⟨inPlaceGray1156, snapshotGray1156, fun hEq => by
    have h := congrFun hEq (1156, 605)
    rw [inPlaceGray1156, snapshotGray1156] at h
    exact absurd h (by decide)⟩

/-- C1, amended: at scale 1 on a 1920×1266 image, the reads of the first two
regions never land on already-overwritten pixels (top-left reads untouched
area; top-right's reads never hit top-left), but bottom-left reads pixels
already overwritten in top-right (e.g. source (754, 599) reads (961, 234)) and
bottom-right reads pixels already overwritten in top-left (e.g. source
(1156, 605) reads (955, 240)); consequently the snapshot design differs from
the in-place reference (215 vs 166 at (1156, 605) on the uniform gray
image). -/
theorem c1_amended_alias_structure :
    (∀ p : ℤ × ℤ, (containsPoint (ringAt 1920 1266 1 Region.topRight) (pq p) &&
        containsPoint (ringAt 1920 1266 1 Region.topLeft)
          (pq (p.1 + -207, p.2 + 365))) = false) ∧
    (containsPoint (ringAt 1920 1266 1 Region.bottomLeft) (pq (754, 599)) = true ∧
     containsPoint (ringAt 1920 1266 1 Region.topRight) (pq (754 + 207, 599 + -365)) = true ∧
     inPlaceRun 1920 1266 1 grayImage (754, 599) = (215, 215, 215)) ∧
    (containsPoint (ringAt 1920 1266 1 Region.bottomRight) (pq (1156, 605)) = true ∧
     containsPoint (ringAt 1920 1266 1 Region.topLeft) (pq (1156 + -201, 605 + -365)) = true ∧
     inPlaceRun 1920 1266 1 grayImage (1156, 605) = (215, 215, 215) ∧
     snapshotRun 1920 1266 1 grayImage (1156, 605) = (166, 166, 166)) := by
  refine ⟨?_, ⟨cBL754, ?_, inPlaceGray754⟩, ⟨cBR1156, ?_, inPlaceGray1156, snapshotGray1156⟩⟩
  · intro p
    cases hc : containsPoint (ringAt 1920 1266 1 Region.topRight) (pq p)
    · simp
    · simp [readTRnotTL p hc]
  · have e : ((754 : ℤ) + 207, (599 : ℤ) + -365) = ((961 : ℤ), (234 : ℤ)) := by norm_num
    rw [e]
    exact cTR961
  · have e : ((1156 : ℤ) + -201, (605 : ℤ) + -365) = ((955 : ℤ), (240 : ℤ)) := by norm_num
    rw [e]
    exact cTL955

/-- C2, counterexample: pixel (1156, 605) is strictly inside the bottom-right
logo region, yet the remap of the uniform (128,128,128) 1920×1266 image at
scale 1 leaves it at (215,215,215), not the claimed (166,166,166): its
mirrored source pixel had already been brightened by the top-left pass. -/
theorem c2_inside_pixel_not_166 :
    containsPoint (ringAt 1920 1266 1 Region.bottomRight) (pq (1156, 605)) = true ∧
    inPlaceRun 1920 1266 1 grayImage (1156, 605) = (215, 215, 215) ∧
    ((215, 215, 215) : Pix) ≠ (166, 166, 166) :=
  ⟨cBR1156, inPlaceGray1156, by decide⟩

/-- C2, amended: after the remap stage of the 1920×1266 uniform-gray run at
scale 1, a pixel strictly inside top-left or top-right is 166; a pixel
strictly inside bottom-left (resp. bottom-right) is 215 when its mirrored
read lands strictly inside the earlier-processed top-right (resp. top-left)
and 166 otherwise; every other pixel keeps 128. -/
theorem c2_amended_gray_characterisation (p : ℤ × ℤ) :
    inPlaceRun 1920 1266 1 grayImage p =
      (if containsPoint (ringAt 1920 1266 1 Region.topLeft) (pq p) then (166, 166, 166)
       else if containsPoint (ringAt 1920 1266 1 Region.topRight) (pq p) then (166, 166, 166)
       else if containsPoint (ringAt 1920 1266 1 Region.bottomLeft) (pq p) then
         (if containsPoint (ringAt 1920 1266 1 Region.topRight) (pq (p.1 + 207, p.2 + -365))
          then (215, 215, 215) else (166, 166, 166))
       else if containsPoint (ringAt 1920 1266 1 Region.bottomRight) (pq p) then
         (if containsPoint (ringAt 1920 1266 1 Region.topLeft) (pq (p.1 + -201, p.2 + -365))
          then (215, 215, 215) else (166, 166, 166))
       else (128, 128, 128)) :=
  inPlaceGrayChar p

/-- C3, counterexample: the brightness filter truncates instead of rounding —
at channel value 196 the code computes `int(min(196·1.3, 255)) = int(254.8) =
254`, while the claimed formula `min(round(196×1.3), 255)` gives 255; so the
filter does not satisfy the rounding formula, and 196 ≥ 196 is not mapped to
255. -/
theorem c3_filter_truncates_not_rounds :
    filter (196, 196, 196) = (254, 254, 254) ∧
    specFilterChannel 196 = 255 ∧
    limit 196 ≠ specFilterChannel 196 := by
  refine ⟨?_, ?_, ?_⟩
  · simp [filter, limit_eq]
  · unfold specFilterChannel
    rw [round_eq]
    norm_num
    decide
  · rw [limit_eq]
    unfold specFilterChannel
    rw [round_eq]
    norm_num
    decide

/-- C3, amended: the per-channel filter returns `min(⌊v × 1.3⌋, 255)`
(truncation, not rounding); it gives 0 at 0, gives 255 exactly from v = 197
upward (196 maps to 254), and is monotone non-decreasing. -/
theorem c3_amended_filter :
    (∀ v : ℕ, limit v = min (13 * v / 10) 255) ∧
    limit 0 = 0 ∧
    (∀ v : ℕ, 197 ≤ v → limit v = 255) ∧
    (∀ a b : ℕ, a ≤ b → limit a ≤ limit b) := by
  refine ⟨limit_eq, ?_, ?_, ?_⟩
  · rw [limit_eq]
    rfl
  · intro v hv
    rw [limit_eq]
    omega
  · intro a b hab
    rw [limit_eq a, limit_eq b]
    have h1 : 13 * a / 10 ≤ 13 * b / 10 := by omega
    omega

/-- C3, witness for the amended claim at concrete inputs. -/
theorem c3_amended_filter_witness : limit 200 = 255 ∧ limit 3 ≤ limit 4 :=
  ⟨c3_amended_filter.2.2.1 200 (by norm_num), c3_amended_filter.2.2.2 3 4 (by norm_num)⟩

/-- C4: the code's crop box is not the centred fixed-ratio crop the spec
describes.  For a 3840×1266 input the code crops to (960, 0, 1920, 1266) — a
region of width 960 (removing 960 px on the left and 1920 px on the right) —
instead of the centred (960, 0, 2880, 1266) of width 1920 = (1920/1266)·1266:
the right/lower edge of the box was written as `m*height` (resp. `width/m`)
instead of `diff/2 + m*height` (resp. `diff/2 + width/m`). -/
theorem c4_crop_box_not_centered :
    cropBox 3840 1266 = (960, 0, 1920, 1266) ∧
    centeredCropBox 3840 1266 = (960, 0, 2880, 1266) ∧
    (1920 : ℚ) - 960 ≠ (1920 / 1266) * 1266 := by
  refine ⟨?_, ?_, by norm_num⟩
  · unfold cropBox
    norm_num
  · unfold centeredCropBox
    norm_num

/-- C5, counterexample: `main` overwrites the global template table — after a
run at width 1920, height 1266, scale 1 the top-left entry holds absolute
pixel coordinates, no longer the relative template. -/
theorem c5_templates_overwritten :
    mainTemplatesAfter 1920 1266 1 Region.topLeft ≠ magics Region.topLeft := by
  intro h
  have h1 : ringAt 1920 1266 1 Region.topLeft = magics Region.topLeft := h
  rw [ringTLv] at h1
  have h2 := congrArg vertex0 h1
  simp [vertex0, magics] at h2
  norm_num [Prod.ext_iff] at h2

/-- C5, amended: the template table is NOT read-only configuration: `main`'s
loop `magics[_] = scale(...)` replaces every entry by its absolute scaled
polygon, so after a 1920×1266 scale-1 run the table holds pixel coordinates
(top-left begins with (960, 231.678)) and no entry equals its original
relative template; a second invocation of `main` in the same process would
observe the scaled values, not the originals. -/
theorem c5_amended_templates :
    mainTemplatesAfter 1920 1266 1 Region.topLeft =
      [(960, 231678/1000), (75456/100, 56337/100), (960, 681108/1000), (960, 231678/1000)] ∧
    (∀ r : Region, mainTemplatesAfter 1920 1266 1 r ≠ magics r) := by
  refine ⟨ringTLv, ?_⟩
  intro r
  fin_cases r
  · intro h
    have h1 : ringAt 1920 1266 1 Region.topLeft = magics Region.topLeft := h
    rw [ringTLv] at h1
    have h2 := congrArg vertex0 h1
    simp [vertex0, magics] at h2
    norm_num [Prod.ext_iff] at h2
  · intro h
    have h1 : ringAt 1920 1266 1 Region.topRight = magics Region.topRight := h
    rw [ringTRv] at h1
    have h2 := congrArg vertex0 h1
    simp [vertex0, magics] at h2
    norm_num [Prod.ext_iff] at h2
  · intro h
    have h1 : ringAt 1920 1266 1 Region.bottomLeft = magics Region.bottomLeft := h
    rw [ringBLv] at h1
    have h2 := congrArg vertex0 h1
    simp [vertex0, magics] at h2
    norm_num [Prod.ext_iff] at h2
  · intro h
    have h1 : ringAt 1920 1266 1 Region.bottomRight = magics Region.bottomRight := h
    rw [ringBRv] at h1
    have h2 := congrArg vertex0 h1
    simp [vertex0, magics] at h2
    norm_num [Prod.ext_iff] at h2

/-- C6: the mirror map is an involution with no fixed point, pairing top-left
with bottom-right and top-right with bottom-left. -/
theorem c6_mirror_involution :
    (∀ r : Region, mirrors (mirrors r) = r) ∧ (∀ r : Region, mirrors r ≠ r) ∧
    mirrors Region.topLeft = Region.bottomRight ∧
    mirrors Region.topRight = Region.bottomLeft := by
  decide

/-- C7: at scale factor 1 the geometry scaler is exactly the per-axis
width/height scaling — no radial distortion — for every polygon whose
vertices avoid the centre (0.5, 0.5). -/
theorem c7_scale_identity_at_one (magic : List (ℝ × ℝ)) (w h : ℝ)
    (hm : ∀ v ∈ magic, v ≠ (0.5, 0.5)) :
    scale magic 1 w h = magic.map fun v => (v.1 * w, v.2 * h) := by
  rw [scale_eq_form magic 1 w h hm]
  apply List.map_congr_left
  intro v _
  simp only [Prod.mk.injEq]
  constructor <;> ring

/-- C7, witness: the vertex (0.5, 0.183) at width 1920, height 1266 maps to
(960, 231.678). -/
theorem c7_scale_identity_witness :
    scale [((0.5 : ℝ), (0.183 : ℝ))] 1 1920 1266 = [((960 : ℝ), (231.678 : ℝ))] := by
  rw [c7_scale_identity_at_one [((0.5 : ℝ), (0.183 : ℝ))] 1920 1266 ?_]
  · norm_num
  · intro v hv
    simp only [List.mem_singleton] at hv
    subst hv
    intro hc
    have h2 := congrArg Prod.snd hc
    norm_num at h2

/-- C8: the scaler's radial distance is zero (so its divisions are by zero)
exactly for a vertex at the centre (0.5, 0.5); no vertex of the four built-in
templates is at the centre, and scaling any template agrees with the exact
closed form for every positive scale factor, width and height. -/
theorem c8_degenerate_only_at_center :
    (∀ x y : ℝ, Real.sqrt ((y - 0.5) ^ 2 + (x - 0.5) ^ 2) = 0 ↔ x = 0.5 ∧ y = 0.5) ∧
    (∀ r : Region, ∀ v ∈ magics r, v ≠ ((1 : ℚ)/2, (1 : ℚ)/2)) ∧
    (∀ r : Region, ∀ s w h : ℚ, 0 < s →
      scale (magicsR r) (s : ℝ) (w : ℝ) (h : ℝ) =
        (scaleQ (magics r) s w h).map fun v => ((v.1 : ℝ), (v.2 : ℝ))) := by
  refine ⟨?_, magics_ne_center, fun r s w h _ => scale_magics_eq_scaleQ r s w h⟩
  intro x y
  constructor
  · intro h0
    have hle : (y - 0.5) ^ 2 + (x - 0.5) ^ 2 ≤ 0 := Real.sqrt_eq_zero'.mp h0
    have hy : (y - 0.5) ^ 2 = 0 := by nlinarith [sq_nonneg (y - 0.5), sq_nonneg (x - 0.5)]
    have hx : (x - 0.5) ^ 2 = 0 := by nlinarith [sq_nonneg (y - 0.5), sq_nonneg (x - 0.5)]
    constructor
    · have := sq_eq_zero_iff.mp hx
      linarith
    · have := sq_eq_zero_iff.mp hy
      linarith
  · rintro ⟨rfl, rfl⟩
    norm_num

/-- C8, witness at concrete inputs: the centre vertex is degenerate, the
top-left template's first vertex is not the centre, and scaling the top-left
template at scale 1, 1920×1266 is well-defined via the closed form. -/
theorem c8_degenerate_witness :
    Real.sqrt (((0.5 : ℝ) - 0.5) ^ 2 + ((0.5 : ℝ) - 0.5) ^ 2) = 0 ∧
    ((1 : ℚ)/2, (183 : ℚ)/1000) ≠ ((1 : ℚ)/2, (1 : ℚ)/2) ∧
    scale (magicsR Region.topLeft) ((1 : ℚ) : ℝ) ((1920 : ℚ) : ℝ) ((1266 : ℚ) : ℝ) =
      (scaleQ (magics Region.topLeft) 1 1920 1266).map fun v => ((v.1 : ℝ), (v.2 : ℝ)) :=
  ⟨(c8_degenerate_only_at_center.1 0.5 0.5).mpr ⟨rfl, rfl⟩,
   c8_degenerate_only_at_center.2.1 Region.topLeft ((1 : ℚ)/2, (183 : ℚ)/1000)
     (by norm_num [magics]),
   c8_degenerate_only_at_center.2.2 Region.topLeft 1 1920 1266 (by norm_num)⟩

/-- C9: with fewer than two positional arguments the program prints the usage
message to standard output and exits with code 0 without processing; with a
non-existent input file it prints the input error message and exits with code
0 without processing. -/
theorem c9_cli_error_paths :
    (∀ (argv : List String) (fileOk : String → Bool), argv.length < 3 →
      cliDispatch argv fileOk = CliOutcome.usage ∧
      cliExitCode (cliDispatch argv fileOk) = 0 ∧
      cliMessage (cliDispatch argv fileOk) =
        ["error: missing arguments",
         "usage: ./main.py INPUT_IMAGE OUTPUT_IMAGE [ETH_SCALE]"] ∧
      cliProcesses (cliDispatch argv fileOk) = false) ∧
    (∀ (argv : List String) (fileOk : String → Bool), 3 ≤ argv.length →
      fileOk (argv.getD 1 "") = false →
      cliDispatch argv fileOk = CliOutcome.inputError ∧
      cliExitCode (cliDispatch argv fileOk) = 0 ∧
      cliMessage (cliDispatch argv fileOk) = ["error: cannot open input file"] ∧
      cliProcesses (cliDispatch argv fileOk) = false) := by
  constructor
  · intro argv fileOk hlen
    have hd : cliDispatch argv fileOk = CliOutcome.usage := by
      unfold cliDispatch
      rw [if_pos hlen]
    exact ⟨hd, by rw [hd]; rfl, by rw [hd]; rfl, by rw [hd]; rfl⟩
  · intro argv fileOk hlen hfile
    have hd : cliDispatch argv fileOk = CliOutcome.inputError := by
      unfold cliDispatch
      rw [if_neg (by omega), hfile]
      simp
    exact ⟨hd, by rw [hd]; rfl, by rw [hd]; rfl, by rw [hd]; rfl⟩

/-- C9, witness at concrete argument vectors. -/
theorem c9_cli_error_paths_witness :
    cliDispatch ["./main.py"] (fun _ => true) = CliOutcome.usage ∧
    cliDispatch ["./main.py", "in.png", "out.png"] (fun _ => false) = CliOutcome.inputError :=
  ⟨(c9_cli_error_paths.1 ["./main.py"] (fun _ => true) (by decide)).1,
   (c9_cli_error_paths.2 ["./main.py", "in.png", "out.png"] (fun _ => false) (by decide) rfl).1⟩

/-- C10: the mirrored read is unguarded, and its in-bounds precondition is not
established for all scale factors: at scale 2 on a 1920×1266 image, pixel
(1200, 700) is strictly inside (and in the iterated bounding box of) the
scaled bottom-right region, whose translation is (-403, -731), so the loop
reads pixel (797, -31) — outside the image (its y violates 0 ≤ y < 1266). -/
theorem c10_unguarded_read_out_of_bounds :
    containsPoint (ringAt 1920 1266 2 Region.bottomRight) (pq (1200, 700)) = true ∧
    inBBoxB (ringAt 1920 1266 2 Region.bottomRight) (1200, 700) = true ∧
    transAt 1920 1266 2 Region.bottomRight = (-403, -731) ∧
    ((1200 : ℤ) + -403, (700 : ℤ) + -731) = ((797 : ℤ), (-31 : ℤ)) ∧
    ¬(0 ≤ (-31 : ℤ) ∧ (-31 : ℤ) < 1266) := by
  refine ⟨?_, ?_, ?_, by norm_num, by norm_num⟩
  · norm_num [containsPoint, ringAt, scaleQ, magics, ringEdges, cross, pq]
  · norm_num [inBBoxB, ringAt, scaleQ, magics, minX, maxX, minY, maxY, ceilQ_eq]
  · norm_num [transAt, ringAt, scaleQ, magics, mirrors, vertex0, truncQ]

end EthWallpaper
